import Mathlib

/-! # Button debounce on a 1 ms timer interrupt (`main.c`)

A shallow embedding of `TIM2_IRQHandler` and of the three globals it owns
(`tick`, `laststate`, `buttonstate`), together with the three memory-mapped
registers the handler touches (`TIM2->SR`, `GPIOA->IDR`, `GPIOD->ODR`).
All `uint32_t` values are natural numbers; the one arithmetic operation that
can overflow, `tick++`, is taken modulo `2^32`.
-/

namespace Debounce

/-- The part of the machine state `TIM2_IRQHandler` reads or writes: the three
globals of `main.c` and the registers `TIM2->SR`, `GPIOA->IDR`, `GPIOD->ODR`. -/
structure Machine where
  tick : Nat
  laststate : Nat
  buttonstate : Nat
  SR : Nat
  IDR : Nat
  ODR : Nat
  deriving DecidableEq, Repr

/-- The local `reading` of the handler: `GPIOA->IDR & (1U<<0)`. -/
def reading (m : Machine) : Nat := m.IDR &&& 1

/-- The interrupt handler `TIM2_IRQHandler` of `main.c`, statement by statement:
`m1` is the state after `TIM2->SR &= ~(1U<<0)` (`~(1U<<0)` is `0xFFFFFFFE`),
`m2` after the `if`/`else` on `tick`, `m3` after the `if(tick > 50)` block
(`1U<<13` is `8192`), and the result is `m3` after `laststate = reading`.
Without the update flag in `TIM2->SR` the body is skipped. -/
def TIM2_IRQHandler (m : Machine) : Machine :=
  if m.SR &&& 1 ≠ 0 then
    let m1 := { m with SR := m.SR &&& 0xFFFFFFFE }
    let reading := reading m1
    let m2 :=
      if reading ≠ m1.laststate then { m1 with tick := 0 }
      else { m1 with tick := (m1.tick + 1) % 2 ^ 32 }
    let m3 :=
      if m2.tick > 50 then
        if reading ≠ m2.buttonstate then
          let m2b := { m2 with buttonstate := reading }
          if m2b.buttonstate ≠ 0 then { m2b with ODR := m2b.ODR ^^^ 8192 }
          else m2b
        else m2
      else m2
    { m3 with laststate := reading }
  else m

/-- The numeric value of a sample: `GPIOA->IDR & 1` is `1` for high, `0` for low. -/
def lvl (s : Bool) : Nat := if s then 1 else 0

/-- What the hardware does before a timer interrupt: the update flag (bit 0 of
`TIM2->SR`) is raised and pin 0 of port A shows the sample `s` in bit 0 of
`GPIOA->IDR`; the other input pins keep their value. -/
def latch (m : Machine) (s : Bool) : Machine :=
  { m with SR := m.SR ||| 1, IDR := 2 * (m.IDR / 2) + lvl s }

/-- One handler step on sample `s`: `TIM2_IRQHandler` run with the update flag
set and `s` in bit 0 of `GPIOA->IDR`. -/
def feed (m : Machine) (s : Bool) : Machine :=
  TIM2_IRQHandler (latch m s)

/-- The handler run once per sample of a finite sample sequence, in order. -/
def run (m : Machine) (samples : List Bool) : Machine :=
  samples.foldl feed m

/-- The state after the handler step at index `i` (0-based) of a sample sequence. -/
def after (m : Machine) (samples : List Bool) (i : Nat) : Machine :=
  run m (samples.take (i + 1))

/-- The state just before the handler step at index `i` of a sample sequence. -/
def before (m : Machine) (samples : List Bool) (i : Nat) : Machine :=
  run m (samples.take i)

/-- The state at reset: the three globals are zero-initialised (`main.c` lines
82 to 84); the registers hold whatever the hardware holds. -/
def boot (sr idr odr : Nat) : Machine :=
  { tick := 0, laststate := 0, buttonstate := 0, SR := sr, IDR := idr, ODR := odr }

/-- The step from `m` to `m'` flipped bit 13 of `GPIOD->ODR` (`ODR ^= (1U<<13)`). -/
def ledFlipped (m m' : Machine) : Prop := m'.ODR = m.ODR ^^^ 8192

instance (m m' : Machine) : Decidable (ledFlipped m m') := by
  unfold ledFlipped; infer_instance

/-- The handler step at index `i` of a sample sequence changed `buttonstate`. -/
def changedAt (m : Machine) (samples : List Bool) (i : Nat) : Prop :=
  (after m samples i).buttonstate ≠ (before m samples i).buttonstate

instance (m : Machine) (samples : List Bool) (i : Nat) : Decidable (changedAt m samples i) := by
  unfold changedAt; infer_instance

/-- Length of the run of samples equal to `b` at the head of a sample sequence. -/
def headRun (b : Bool) : List Bool → Nat
  | [] => 0
  | s :: rest => if s = b then headRun b rest + 1 else 0

/-! ## The algorithm of section 4.2 of the specification

A second model, written from the words of the specification and independent of
`main.c`: `stableTicks` is an unbounded natural number here. -/

/-- The `DebounceState` of section 3 of the specification. -/
structure DebounceState where
  stableTicks : Nat
  lastSample : Bool
  confirmedState : Bool
  deriving DecidableEq, Repr

/-- The zero-initialised `DebounceState`. -/
def DebounceState.zero : DebounceState :=
  { stableTicks := 0, lastSample := false, confirmedState := false }

/-- Steps 2 to 5 of the algorithm of section 4.2 on the raw sample `s`; the
second component is the emitted toggle-requested value. -/
def debounceStep (d : DebounceState) (s : Bool) : DebounceState × Bool :=
  let stableTicks := if s ≠ d.lastSample then 0 else d.stableTicks + 1
  if stableTicks > 50 ∧ s ≠ d.confirmedState then
    ({ stableTicks := stableTicks, lastSample := s, confirmedState := s }, true)
  else
    ({ stableTicks := stableTicks, lastSample := s, confirmedState := d.confirmedState }, false)

/-- The algorithm of section 4.2 applied tick by tick to a sample sequence. -/
def debounceRun (d : DebounceState) (samples : List Bool) : DebounceState :=
  samples.foldl (fun d s => (debounceStep d s).1) d

/-- The specification state after the step at index `i` of a sample sequence,
from the zero-initialised state. -/
def specAfter (samples : List Bool) (i : Nat) : DebounceState :=
  debounceRun DebounceState.zero (samples.take (i + 1))

/-- The specification state just before the step at index `i`. -/
def specBefore (samples : List Bool) (i : Nat) : DebounceState :=
  debounceRun DebounceState.zero (samples.take i)

/-- The relation kept between the handler state and the specification state:
the 32-bit counter is the unbounded one modulo `2^32`, the two booleans agree,
and a specification counter above the threshold means the sample is confirmed. -/
def Sim (m : Machine) (d : DebounceState) : Prop :=
  m.tick = d.stableTicks % 2 ^ 32 ∧ m.laststate = lvl d.lastSample ∧
  m.buttonstate = lvl d.confirmedState ∧
  (d.stableTicks > 50 → d.confirmedState = d.lastSample)

/-! ## Concrete states used as test points -/

/-- The handler is about to run on the 52nd high sample after reset: 51 high
samples have been counted, the update flag is raised and pin 0 reads high. -/
def pressDue : Machine :=
  { tick := 50, laststate := 1, buttonstate := 0, SR := 1, IDR := 1, ODR := 0 }

/-- The handler is about to run on the 52nd low sample after a confirmed press. -/
def releaseDue : Machine :=
  { tick := 50, laststate := 0, buttonstate := 1, SR := 1, IDR := 0, ODR := 8192 }

/-- The button has been held for so long that `tick` is `2^32 - 1`. -/
def heldAtWrap : Machine :=
  { tick := 4294967295, laststate := 1, buttonstate := 1, SR := 1, IDR := 1, ODR := 8192 }

/-- Scenario 4 of section 8: 30 high, 30 low, 60 high samples. -/
def scenario4 : List Bool :=
  List.replicate 30 true ++ List.replicate 30 false ++ List.replicate 60 true

/-- A spurious invocation: the update flag (bit 0 of `TIM2->SR`) is clear while
another status bit is set, and a press would otherwise be due. -/
def spuriousCall : Machine :=
  { tick := 50, laststate := 1, buttonstate := 0, SR := 2, IDR := 1, ODR := 0 }

/-- Every status bit of `TIM2->SR` is set when the handler is entered. -/
def allFlags : Machine :=
  { tick := 7, laststate := 0, buttonstate := 0, SR := 0xFFFFFFFF, IDR := 0, ODR := 0 }

/-! ## Timer configuration (`timer_init`) -/

/-- The macro `FREQ` of `main.c`: the CPU clock frequency in Hz. -/
def FREQ : Nat := 16000000

/-- The registers `timer_init` writes: `RCC->APB1ENR`, `RCC->APB1RSTR`,
`NVIC->IP[7]`, `NVIC->ISER[0]` and the `TIM2` registers `CR1`, `PSC`, `ARR`,
`EGR`, `DIER`, as plain 32-bit variables. -/
structure TimerRegs where
  APB1ENR : Nat
  APB1RSTR : Nat
  IP7 : Nat
  ISER0 : Nat
  CR1 : Nat
  PSC : Nat
  ARR : Nat
  EGR : Nat
  DIER : Nat
  deriving DecidableEq, Repr

/-- The function `timer_init` of `main.c`, one register write per line of the
source (`28>>5UL` is `0`, `1U<<28` is `268435456`, `~(1U<<0)` is `0xFFFFFFFE`). -/
def timer_init (r : TimerRegs) : TimerRegs :=
  let r := { r with APB1ENR := r.APB1ENR ||| 1 }
  let r := { r with IP7 := r.IP7 ||| 16 }
  let r := { r with ISER0 := 268435456 }
  let r := { r with CR1 := r.CR1 &&& 0xFFFFFFFE }
  let r := { r with APB1RSTR := r.APB1RSTR ||| 1 }
  let r := { r with APB1RSTR := r.APB1RSTR &&& 0xFFFFFFFE }
  let r := { r with PSC := 15 }
  let r := { r with ARR := 1000 }
  let r := { r with EGR := r.EGR ||| 1 }
  let r := { r with DIER := r.DIER ||| 1 }
  { r with CR1 := r.CR1 ||| 1 }

/-- Clock cycles between two update events of an up-counting timer: the
prescaler divides the clock by `PSC + 1` and the counter runs through the
`ARR + 1` values `0 .. ARR`. -/
def updatePeriodCycles (r : TimerRegs) : Nat := (r.PSC + 1) * (r.ARR + 1)

/-- Clock cycles in one millisecond at the clock frequency `FREQ`. -/
def cyclesPerMs : Nat := FREQ / 1000

/-- The registers at reset, all zero. -/
def resetRegs : TimerRegs :=
  { APB1ENR := 0, APB1RSTR := 0, IP7 := 0, ISER0 := 0, CR1 := 0, PSC := 0, ARR := 0,
    EGR := 0, DIER := 0 }

/-! ## Register arithmetic -/

theorem flag_raised (x : Nat) : (x ||| 1) &&& 1 ≠ 0 := by
  have h : (x ||| 1).testBit 0 = true := by simp [Nat.testBit_or]
  rw [Nat.and_one_is_mod]
  rw [Nat.testBit_zero] at h
  simp [h]

theorem pin0_reading (x : Nat) (s : Bool) : (2 * (x / 2) + lvl s) &&& 1 = lvl s := by
  rw [Nat.and_one_is_mod]
  cases s
  · simp [lvl]
  · simp [lvl]; omega

theorem flip13_ne (x : Nat) : x ^^^ 8192 ≠ x := by
  intro h
  have h1 : x ^^^ (x ^^^ 8192) = 0 := by rw [h, Nat.xor_self]
  rw [← Nat.xor_assoc, Nat.xor_self, Nat.zero_xor] at h1
  exact absurd h1 (by decide)

theorem lvl_le_one (s : Bool) : lvl s ≤ 1 := by cases s <;> simp [lvl]

theorem lvl_inj {a b : Bool} (h : lvl a = lvl b) : a = b := by
  cases a <;> cases b <;> simp_all [lvl]

theorem lvl_not (s : Bool) : lvl (!s) = 1 - lvl s := by cases s <;> simp [lvl]

/-! ## One invocation of the handler -/

/-- The handler with the update flag set, field by field. -/
theorem handler_fields (m : Machine) (h : m.SR &&& 1 ≠ 0) :
    TIM2_IRQHandler m =
      { tick := if reading m ≠ m.laststate then 0 else (m.tick + 1) % 2 ^ 32
        laststate := reading m
        buttonstate :=
          if (if reading m ≠ m.laststate then 0 else (m.tick + 1) % 2 ^ 32) > 50 ∧
              reading m ≠ m.buttonstate
          then reading m else m.buttonstate
        SR := m.SR &&& 0xFFFFFFFE
        IDR := m.IDR
        ODR :=
          if (if reading m ≠ m.laststate then 0 else (m.tick + 1) % 2 ^ 32) > 50 ∧
              reading m ≠ m.buttonstate ∧ reading m ≠ 0
          then m.ODR ^^^ 8192 else m.ODR } := by
  unfold TIM2_IRQHandler
  rw [if_pos h]
  have hr : reading { m with SR := m.SR &&& 0xFFFFFFFE } = reading m := rfl
  simp only [hr]
  generalize reading m = r
  generalize (m.tick + 1) % 2 ^ 32 = t
  split_ifs <;> first | rfl | simp_all

theorem handler_tick (m : Machine) (h : m.SR &&& 1 ≠ 0) :
    (TIM2_IRQHandler m).tick =
      if reading m ≠ m.laststate then 0 else (m.tick + 1) % 2 ^ 32 := by
  rw [handler_fields m h]

theorem handler_laststate (m : Machine) (h : m.SR &&& 1 ≠ 0) :
    (TIM2_IRQHandler m).laststate = reading m := by
  rw [handler_fields m h]

theorem handler_buttonstate (m : Machine) (h : m.SR &&& 1 ≠ 0) :
    (TIM2_IRQHandler m).buttonstate =
      if (TIM2_IRQHandler m).tick > 50 ∧ reading m ≠ m.buttonstate then reading m
      else m.buttonstate := by
  rw [handler_tick m h, handler_fields m h]

theorem handler_ODR (m : Machine) (h : m.SR &&& 1 ≠ 0) :
    (TIM2_IRQHandler m).ODR =
      if (TIM2_IRQHandler m).tick > 50 ∧ reading m ≠ m.buttonstate ∧ reading m ≠ 0
      then m.ODR ^^^ 8192 else m.ODR := by
  rw [handler_tick m h, handler_fields m h]

theorem reading_le_one (m : Machine) : reading m ≤ 1 := by
  unfold reading
  rw [Nat.and_one_is_mod]
  omega

/-! ## One handler step on a sample -/

theorem latch_reading (m : Machine) (s : Bool) : reading (latch m s) = lvl s :=
  pin0_reading m.IDR s

theorem latch_flag (m : Machine) (s : Bool) : (latch m s).SR &&& 1 ≠ 0 :=
  flag_raised m.SR

theorem feed_tick (m : Machine) (s : Bool) :
    (feed m s).tick = if lvl s ≠ m.laststate then 0 else (m.tick + 1) % 2 ^ 32 := by
  have h := handler_tick (latch m s) (latch_flag m s)
  rw [latch_reading] at h
  exact h

theorem feed_laststate (m : Machine) (s : Bool) : (feed m s).laststate = lvl s := by
  have h := handler_laststate (latch m s) (latch_flag m s)
  rw [latch_reading] at h
  exact h

theorem feed_buttonstate (m : Machine) (s : Bool) :
    (feed m s).buttonstate =
      if (feed m s).tick > 50 ∧ lvl s ≠ m.buttonstate then lvl s else m.buttonstate := by
  have h := handler_buttonstate (latch m s) (latch_flag m s)
  rw [latch_reading] at h
  exact h

theorem feed_ODR (m : Machine) (s : Bool) :
    (feed m s).ODR =
      if (feed m s).tick > 50 ∧ lvl s ≠ m.buttonstate ∧ s = true
      then m.ODR ^^^ 8192 else m.ODR := by
  have h := handler_ODR (latch m s) (latch_flag m s)
  rw [latch_reading] at h
  show (TIM2_IRQHandler (latch m s)).ODR =
    if (TIM2_IRQHandler (latch m s)).tick > 50 ∧ lvl s ≠ m.buttonstate ∧ s = true
    then m.ODR ^^^ 8192 else m.ODR
  rw [h]
  cases s
  · simp [lvl, latch]
  · simp [lvl, latch]

/-! ## Runs of the handler over a sample sequence -/

theorem run_nil (m : Machine) : run m [] = m := rfl

theorem run_cons (m : Machine) (s : Bool) (l : List Bool) :
    run m (s :: l) = run (feed m s) l := rfl

theorem run_append (m : Machine) (l₁ l₂ : List Bool) :
    run m (l₁ ++ l₂) = run (run m l₁) l₂ := by
  simp [run, List.foldl_append]

theorem run_snoc (m : Machine) (l : List Bool) (s : Bool) :
    run m (l ++ [s]) = feed (run m l) s := by
  simp [run, List.foldl_append]

theorem run_replicate_succ (m : Machine) (k : Nat) (s : Bool) :
    run m (List.replicate (k + 1) s) = feed (run m (List.replicate k s)) s := by
  rw [List.replicate_succ', run_snoc]

theorem after_replicate (m : Machine) (n i : Nat) (s : Bool) (h : i < n) :
    after m (List.replicate n s) i = run m (List.replicate (i + 1) s) := by
  unfold after
  rw [List.take_replicate, Nat.min_eq_left (by omega)]

theorem before_replicate (m : Machine) (n i : Nat) (s : Bool) (h : i < n) :
    before m (List.replicate n s) i = run m (List.replicate i s) := by
  unfold before
  rw [List.take_replicate, Nat.min_eq_left (by omega)]

/-- Feeding the value that is both the last sample and the debounced state
changes neither the debounced state nor the output register. -/
theorem run_stable (s : Bool) (n : Nat) (m : Machine)
    (hl : m.laststate = lvl s) (hb : m.buttonstate = lvl s) :
    (run m (List.replicate n s)).laststate = lvl s ∧
    (run m (List.replicate n s)).buttonstate = lvl s ∧
    (run m (List.replicate n s)).ODR = m.ODR := by
  induction n with
  | zero => exact ⟨hl, hb, rfl⟩
  | succ k ih =>
    obtain ⟨ihl, ihb, iho⟩ := ih
    rw [run_replicate_succ]
    refine ⟨feed_laststate _ _, ?_, ?_⟩
    · rw [feed_buttonstate, ihb]; simp
    · rw [feed_ODR, ihb, iho]; simp

/-- While the opposite value is being held, the counter after the sample at
index `k` is `k`, and the debounced state has not moved up to index 50. -/
theorem run_ramp (v : Bool) (m : Machine)
    (hl : m.laststate = lvl v) (hb : m.buttonstate = lvl v) (k : Nat) (hk : k ≤ 50) :
    (run m (List.replicate (k + 1) (!v))).tick = k ∧
    (run m (List.replicate (k + 1) (!v))).laststate = lvl (!v) ∧
    (run m (List.replicate (k + 1) (!v))).buttonstate = lvl v := by
  have hne : lvl (!v) ≠ lvl v := by cases v <;> simp [lvl]
  induction k with
  | zero =>
    rw [run_replicate_succ]
    have ht : (feed (run m (List.replicate 0 (!v))) (!v)).tick = 0 := by
      rw [feed_tick]; simp [run_nil, hl, hne]
    refine ⟨ht, feed_laststate _ _, ?_⟩
    rw [feed_buttonstate, ht]; simp [run_nil, hb]
  | succ j ih =>
    obtain ⟨iht, ihl, ihb⟩ := ih (by omega)
    rw [run_replicate_succ]
    have ht : (feed (run m (List.replicate (j + 1) (!v))) (!v)).tick = j + 1 := by
      rw [feed_tick, ihl, iht]; simp; omega
    refine ⟨ht, feed_laststate _ _, ?_⟩
    rw [feed_buttonstate, ht, ihb]
    have : ¬ (j + 1 > 50) := by omega
    simp [this]

/-- The 52nd opposite sample (index 51) is the one that moves the debounced state. -/
theorem run_confirm (v : Bool) (m : Machine)
    (hl : m.laststate = lvl v) (hb : m.buttonstate = lvl v) :
    (run m (List.replicate 52 (!v))).laststate = lvl (!v) ∧
    (run m (List.replicate 52 (!v))).buttonstate = lvl (!v) := by
  have hne : lvl (!v) ≠ lvl v := by cases v <;> simp [lvl]
  obtain ⟨iht, ihl, ihb⟩ := run_ramp v m hl hb 50 (by omega)
  rw [run_replicate_succ]
  refine ⟨feed_laststate _ _, ?_⟩
  rw [feed_buttonstate, feed_tick, ihl, iht, ihb]
  simp [hne]

theorem run_opposite_buttonstate (v : Bool) (m : Machine)
    (hl : m.laststate = lvl v) (hb : m.buttonstate = lvl v) (k : Nat) :
    (run m (List.replicate k (!v))).buttonstate = if k ≤ 51 then lvl v else lvl (!v) := by
  by_cases hk : k ≤ 51
  · rw [if_pos hk]
    cases k with
    | zero => exact hb
    | succ j => exact (run_ramp v m hl hb j (by omega)).2.2
  · rw [if_neg hk]
    obtain ⟨cl, cb⟩ := run_confirm v m hl hb
    have hsplit : List.replicate k (!v) =
        List.replicate 52 (!v) ++ List.replicate (k - 52) (!v) := by
      rw [List.append_replicate_replicate]; congr 1; omega
    rw [hsplit, run_append]
    exact (run_stable (!v) (k - 52) _ cl cb).2.1

/-! ## Bounce rejection -/

theorem replicate_prefix_of_headRun (b : Bool) (n : Nat) :
    ∀ l : List Bool, n ≤ headRun b l → List.replicate n b <+: l := by
  induction n with
  | zero => intro l _; exact List.nil_prefix
  | succ k ih =>
    intro l h
    cases l with
    | nil => simp [headRun] at h
    | cons s rest =>
      by_cases hs : s = b
      · subst hs
        simp only [headRun, if_true] at h
        rw [List.replicate_succ]
        exact (List.prefix_cons_inj s).2 (ih rest (by omega))
      · simp [headRun, hs] at h

theorem headRun_le_of_no_block (bound : Nat) (b : Bool) (l : List Bool)
    (h : ¬ List.replicate (bound + 1) b <:+: l) : headRun b l ≤ bound := by
  by_contra hc
  exact h (replicate_prefix_of_headRun b (bound + 1) l (by omega)).isInfix

theorem no_block_tail (n : Nat) (s : Bool) (rest : List Bool)
    (h : ∀ b : Bool, ¬ List.replicate n b <:+: (s :: rest)) :
    ∀ b : Bool, ¬ List.replicate n b <:+: rest := by
  intro b hb
  exact h b (hb.trans (List.suffix_cons s rest).isInfix)

/-- As long as the run in progress, counted from the counter value, and every
later run stay within 50 samples, the debounced state stays 0 and the output
register keeps its value, after every step. -/
theorem quiet_prefix (l : List Bool) :
    ∀ (m : Machine) (p : Bool) (k : Nat), m.laststate = lvl p → m.buttonstate = 0 →
      m.tick + headRun p l ≤ 50 → (∀ b : Bool, ¬ List.replicate 51 b <:+: l) →
      (run m (l.take k)).buttonstate = 0 ∧ (run m (l.take k)).ODR = m.ODR := by
  induction l with
  | nil => intro m p k _ hb _ _; simp [run_nil, hb]
  | cons s rest ih =>
    intro m p k hl hb ht hno
    cases k with
    | zero => simp [run_nil, hb]
    | succ j =>
      rw [List.take_succ_cons, run_cons]
      have hrest := no_block_tail 51 s rest hno
      have hhead : headRun s (s :: rest) ≤ 50 := headRun_le_of_no_block 50 s _ (hno s)
      simp only [headRun, if_true] at hhead
      have htick : (feed m s).tick ≤ 50 ∧
          ∃ q : Bool, (feed m s).laststate = lvl q ∧ (feed m s).tick + headRun q rest ≤ 50 := by
        by_cases hs : s = p
        · subst hs
          simp only [headRun, if_true] at ht
          have h1 : (feed m s).tick = (m.tick + 1) % 2 ^ 32 := by
            rw [feed_tick]; simp [hl]
          have h2 : (m.tick + 1) % 2 ^ 32 = m.tick + 1 := Nat.mod_eq_of_lt (by omega)
          refine ⟨by omega, s, feed_laststate _ _, by omega⟩
        · have hne : lvl s ≠ m.laststate := by
            rw [hl]; intro h; exact hs (lvl_inj h)
          have h1 : (feed m s).tick = 0 := by rw [feed_tick]; simp [hne]
          refine ⟨by omega, s, feed_laststate _ _, by omega⟩
      obtain ⟨hle, q, hq, hqt⟩ := htick
      have hnot : ¬ ((feed m s).tick > 50) := by omega
      have hb2 : (feed m s).buttonstate = 0 := by
        rw [feed_buttonstate]; simp [hnot, hb]
      have ho2 : (feed m s).ODR = m.ODR := by
        rw [feed_ODR]; simp [hnot]
      obtain ⟨r1, r2⟩ := ih (feed m s) q j hq hb2 hqt hrest
      exact ⟨r1, by rw [r2, ho2]⟩

theorem headRun_boot (l : List Bool) (h : ∀ b : Bool, ¬ List.replicate 51 b <:+: l) :
    headRun false l ≤ 50 :=
  headRun_le_of_no_block 50 false l (h false)

/-! ## The handler against the algorithm of section 4.2 -/

theorem debounceRun_nil (d : DebounceState) : debounceRun d [] = d := rfl

theorem debounceRun_cons (d : DebounceState) (s : Bool) (l : List Bool) :
    debounceRun d (s :: l) = debounceRun (debounceStep d s).1 l := rfl

theorem debounceRun_snoc (d : DebounceState) (l : List Bool) (s : Bool) :
    debounceRun d (l ++ [s]) = (debounceStep (debounceRun d l) s).1 := by
  simp [debounceRun, List.foldl_append]

theorem debounceStep_stableTicks (d : DebounceState) (s : Bool) :
    (debounceStep d s).1.stableTicks = if s ≠ d.lastSample then 0 else d.stableTicks + 1 := by
  simp only [debounceStep]
  split_ifs <;> rfl

theorem debounceStep_lastSample (d : DebounceState) (s : Bool) :
    (debounceStep d s).1.lastSample = s := by
  simp only [debounceStep]
  split_ifs <;> rfl

theorem debounceStep_confirmedState (d : DebounceState) (s : Bool) :
    (debounceStep d s).1.confirmedState =
      if (debounceStep d s).1.stableTicks > 50 ∧ s ≠ d.confirmedState then s
      else d.confirmedState := by
  rw [debounceStep_stableTicks]
  simp only [debounceStep]
  split_ifs <;> rfl

theorem debounceStep_toggled (d : DebounceState) (s : Bool) :
    (debounceStep d s).2 = true ↔
      (debounceStep d s).1.confirmedState ≠ d.confirmedState := by
  simp only [debounceStep]
  split_ifs with h1 h2 h2
  · simp only [true_iff]; exact h2.2
  · simp
  · simp only [true_iff]; exact h2.2
  · simp

theorem sim_boot (sr idr odr : Nat) : Sim (boot sr idr odr) DebounceState.zero := by
  simp [Sim, boot, DebounceState.zero, lvl]

/-- One handler step and one step of the algorithm keep the two states related,
also when the 32-bit counter wraps. -/
theorem sim_step (m : Machine) (d : DebounceState) (s : Bool) (h : Sim m d) :
    Sim (feed m s) (debounceStep d s).1 := by
  obtain ⟨ht, hl, hb, hc⟩ := h
  have T : (feed m s).tick = (debounceStep d s).1.stableTicks % 2 ^ 32 := by
    rw [feed_tick, debounceStep_stableTicks, hl, ht]
    by_cases e : s = d.lastSample
    · simp [e]
    · have : lvl s ≠ lvl d.lastSample := fun x => e (lvl_inj x)
      simp [e, this]
  have C : (debounceStep d s).1.stableTicks > 50 →
      (debounceStep d s).1.confirmedState = (debounceStep d s).1.lastSample := by
    intro hgt
    rw [debounceStep_confirmedState, debounceStep_lastSample]
    by_cases e : s = d.confirmedState
    · simp [e]
    · simp [e, hgt]
  refine ⟨T, ?_, ?_, C⟩
  · rw [feed_laststate, debounceStep_lastSample]
  · rw [feed_buttonstate, debounceStep_confirmedState, T, hb]
    by_cases e : s = d.confirmedState
    · simp [e]
    · have e1 : lvl s ≠ lvl d.confirmedState := fun x => e (lvl_inj x)
      by_cases hgt : (debounceStep d s).1.stableTicks > 50
      · by_cases hw : (debounceStep d s).1.stableTicks % 2 ^ 32 > 50
        · rw [if_pos ⟨hw, e1⟩, if_pos ⟨hgt, e⟩]
        · -- the 32-bit counter has wrapped: the sample was already confirmed
          exfalso
          rw [debounceStep_stableTicks] at hgt hw
          by_cases e2 : s = d.lastSample
          · simp only [e2, ne_eq, not_true_eq_false, if_false] at hgt hw
            have hbig : d.stableTicks > 50 := by
              by_contra hsmall
              have : (d.stableTicks + 1) % 2 ^ 32 = d.stableTicks + 1 :=
                Nat.mod_eq_of_lt (by omega)
              omega
            exact e (by rw [e2]; exact (hc hbig).symm)
          · simp [e2] at hgt
      · have hw : ¬ (debounceStep d s).1.stableTicks % 2 ^ 32 > 50 := by
          have := Nat.mod_le (debounceStep d s).1.stableTicks (2 ^ 32)
          omega
        rw [if_neg (fun x => hw x.1), if_neg (fun x => hgt x.1)]

theorem sim_run (l : List Bool) :
    ∀ (m : Machine) (d : DebounceState), Sim m d → Sim (run m l) (debounceRun d l) := by
  induction l with
  | nil => intro m d h; exact h
  | cons s rest ih =>
    intro m d h
    rw [run_cons, debounceRun_cons]
    exact ih _ _ (sim_step m d s h)

/-! ## Symmetry between the two levels -/

theorem symm_step (m m2 : Machine) (s : Bool)
    (hl1 : m.laststate ≤ 1) (hb1 : m.buttonstate ≤ 1)
    (ht : m2.tick = m.tick) (hl : m2.laststate = 1 - m.laststate)
    (hb : m2.buttonstate = 1 - m.buttonstate) :
    (feed m s).laststate ≤ 1 ∧ (feed m s).buttonstate ≤ 1 ∧
    (feed m2 (!s)).tick = (feed m s).tick ∧
    (feed m2 (!s)).laststate = 1 - (feed m s).laststate ∧
    (feed m2 (!s)).buttonstate = 1 - (feed m s).buttonstate := by
  have T : (feed m2 (!s)).tick = (feed m s).tick := by
    rw [feed_tick, feed_tick, ht, hl, lvl_not]
    have := lvl_le_one s
    split_ifs <;> first | rfl | omega
  have B : (feed m s).buttonstate ≤ 1 := by
    rw [feed_buttonstate]
    have := lvl_le_one s
    split_ifs <;> omega
  refine ⟨by rw [feed_laststate]; exact lvl_le_one s, B, T, ?_, ?_⟩
  · rw [feed_laststate, feed_laststate, lvl_not]
  · rw [feed_buttonstate, feed_buttonstate, T, hb, lvl_not]
    have := lvl_le_one s
    split_ifs <;> first | rfl | omega

theorem symm_run (l : List Bool) :
    ∀ (m m2 : Machine), m.laststate ≤ 1 → m.buttonstate ≤ 1 →
      m2.tick = m.tick → m2.laststate = 1 - m.laststate →
      m2.buttonstate = 1 - m.buttonstate →
      (run m l).laststate ≤ 1 ∧ (run m l).buttonstate ≤ 1 ∧
      (run m2 (l.map not)).tick = (run m l).tick ∧
      (run m2 (l.map not)).laststate = 1 - (run m l).laststate ∧
      (run m2 (l.map not)).buttonstate = 1 - (run m l).buttonstate := by
  induction l with
  | nil => intro m m2 hl1 hb1 ht hl hb; exact ⟨hl1, hb1, ht, hl, hb⟩
  | cons s rest ih =>
    intro m m2 hl1 hb1 ht hl hb
    obtain ⟨a, b, c, d, e⟩ := symm_step m m2 s hl1 hb1 ht hl hb
    rw [List.map_cons, run_cons, run_cons]
    exact ih _ _ a b c d e

/-! ## The claims -/

/-- C1: from a state whose last sample and debounced state are both `v`, with
any counter value, feeding `n ≥ 52` samples of the opposite value changes
`buttonstate` exactly once, at index 51; `buttonstate` is still `v` after each
of the indices 0 to 50 and is the opposite value after every index from 51 on. -/
theorem C1_confirm_on_52nd_sample (v : Bool) (m : Machine)
    (hl : m.laststate = lvl v) (hb : m.buttonstate = lvl v)
    (n : Nat) (hn : 52 ≤ n) (i : Nat) (hi : i < n) :
    changedAt m (List.replicate n (!v)) 51 ∧
    (changedAt m (List.replicate n (!v)) i ↔ i = 51) ∧
    (i ≤ 50 → (after m (List.replicate n (!v)) i).buttonstate = lvl v) ∧
    (51 ≤ i → (after m (List.replicate n (!v)) i).buttonstate = lvl (!v)) := by
  have hne : lvl (!v) ≠ lvl v := by cases v <;> simp [lvl]
  have ha := run_opposite_buttonstate v m hl hb (i + 1)
  have hbf := run_opposite_buttonstate v m hl hb i
  have h52 := run_opposite_buttonstate v m hl hb (51 + 1)
  have h51 := run_opposite_buttonstate v m hl hb 51
  unfold changedAt
  rw [after_replicate m n i _ hi, before_replicate m n i _ hi, ha, hbf,
    after_replicate m n 51 _ (by omega), before_replicate m n 51 _ (by omega), h52, h51]
  refine ⟨by simpa using hne, ?_, ?_, ?_⟩
  · constructor
    · intro h
      by_contra hne51
      rcases Nat.lt_or_gt_of_ne hne51 with h1 | h1
      · rw [if_pos (by omega), if_pos (by omega)] at h; exact h rfl
      · rw [if_neg (by omega), if_neg (by omega)] at h; exact h rfl
    · intro h
      rw [if_neg (by omega), if_pos (by omega)]
      exact hne
  · intro h; rw [if_pos (by omega)]
  · intro h; rw [if_neg (by omega)]

/-- C1 at a concrete input: 60 high samples from reset, seen at index 51. -/
theorem C1_confirm_on_52nd_sample_witness :
    changedAt (boot 0 0 0) (List.replicate 60 (!false)) 51 ∧
    (changedAt (boot 0 0 0) (List.replicate 60 (!false)) 51 ↔ 51 = 51) ∧
    (51 ≤ 50 → (after (boot 0 0 0) (List.replicate 60 (!false)) 51).buttonstate = lvl false) ∧
    (51 ≤ 51 → (after (boot 0 0 0) (List.replicate 60 (!false)) 51).buttonstate
        = lvl (!false)) :=
  C1_confirm_on_52nd_sample false (boot 0 0 0) rfl rfl 60 (by decide) 51 (by decide)

/-- C2 fails as stated: from reset, 52 high samples then 51 low ones lead to
the state `tick = 50, laststate = 0, buttonstate = 1`; with the flag raised on
the next low sample (`releaseDue`) the handler changes `buttonstate` from 1 to
0 and bit 13 of `GPIOD->ODR` is not flipped. -/
theorem C2_falling_change_counterexample :
    latch (run (boot 0 0 0) (List.replicate 52 true ++ List.replicate 51 false)) false
      = releaseDue ∧
    ¬ (ledFlipped releaseDue (TIM2_IRQHandler releaseDue) ↔
       (TIM2_IRQHandler releaseDue).buttonstate ≠ releaseDue.buttonstate) := by
  decide!

/-- C2, amended: for every state with the update flag set, one invocation of
the handler flips bit 13 of `GPIOD->ODR` if and only if it changes
`buttonstate` and the reading is high (a rising change); an invocation that
changes `buttonstate` on a low reading (a falling change) leaves `GPIOD->ODR`
as it was. -/
theorem C2_toggle_iff_rising_change (m : Machine) (h : m.SR &&& 1 ≠ 0) :
    (ledFlipped m (TIM2_IRQHandler m) ↔
      ((TIM2_IRQHandler m).buttonstate ≠ m.buttonstate ∧ reading m = 1)) ∧
    ((TIM2_IRQHandler m).buttonstate ≠ m.buttonstate → reading m = 0 →
      (TIM2_IRQHandler m).ODR = m.ODR) := by
  have hr := reading_le_one m
  have hx := flip13_ne m.ODR
  unfold ledFlipped
  rw [handler_ODR m h, handler_buttonstate m h]
  refine ⟨?_, ?_⟩
  · split_ifs with h1 h2 h2
    · exact ⟨fun _ => ⟨h2.2, by omega⟩, fun _ => rfl⟩
    · exact absurd ⟨h1.1, h1.2.1⟩ h2
    · exact ⟨fun e => absurd e.symm hx, fun e => absurd ⟨h2.1, h2.2, by omega⟩ h1⟩
    · exact ⟨fun e => absurd e.symm hx, fun e => absurd rfl e.1⟩
  · intro _ h0
    rw [if_neg (fun x => x.2.2 h0)]

/-- C2 (amended) at a concrete input: the rising change at `tick = 50`. -/
theorem C2_toggle_iff_rising_change_witness :
    (ledFlipped pressDue (TIM2_IRQHandler pressDue) ↔
      ((TIM2_IRQHandler pressDue).buttonstate ≠ pressDue.buttonstate ∧
        reading pressDue = 1)) ∧
    ((TIM2_IRQHandler pressDue).buttonstate ≠ pressDue.buttonstate →
      reading pressDue = 0 → (TIM2_IRQHandler pressDue).ODR = pressDue.ODR) :=
  C2_toggle_iff_rising_change pressDue (by decide)

/-- C3: from the zero-initialised state, on every sample sequence that holds no
block of 51 consecutive identical samples (no run longer than 50), after every
handler step `buttonstate` is 0 and `GPIOD->ODR` has its initial value; no step
changes `buttonstate` and no step flips bit 13. -/
theorem C3_bounce_rejection (sr idr odr : Nat) (samples : List Bool)
    (h : ∀ b : Bool, ¬ List.replicate 51 b <:+: samples) (i : Nat) :
    (after (boot sr idr odr) samples i).buttonstate = 0 ∧
    (after (boot sr idr odr) samples i).ODR = odr ∧
    ¬ changedAt (boot sr idr odr) samples i ∧
    ¬ ledFlipped (before (boot sr idr odr) samples i) (after (boot sr idr odr) samples i) := by
  have h0 : (boot sr idr odr).tick + headRun false samples ≤ 50 := by
    have := headRun_boot samples h
    simp only [boot]; omega
  obtain ⟨a1, a2⟩ := quiet_prefix samples (boot sr idr odr) false (i + 1) rfl rfl h0 h
  obtain ⟨b1, b2⟩ := quiet_prefix samples (boot sr idr odr) false i rfl rfl h0 h
  unfold changedAt ledFlipped after before
  rw [a1, a2, b1, b2]
  exact ⟨rfl, rfl, fun e => e rfl, fun e => flip13_ne _ e.symm⟩

/-- C3 at a concrete input: 50 low, 50 high, 50 low samples, seen at the last index. -/
theorem C3_bounce_rejection_witness :
    (after (boot 0 0 0)
      (List.replicate 50 false ++ List.replicate 50 true ++ List.replicate 50 false)
      149).buttonstate = 0 ∧
    (after (boot 0 0 0)
      (List.replicate 50 false ++ List.replicate 50 true ++ List.replicate 50 false)
      149).ODR = 0 ∧
    ¬ changedAt (boot 0 0 0)
      (List.replicate 50 false ++ List.replicate 50 true ++ List.replicate 50 false) 149 ∧
    ¬ ledFlipped
      (before (boot 0 0 0)
        (List.replicate 50 false ++ List.replicate 50 true ++ List.replicate 50 false) 149)
      (after (boot 0 0 0)
        (List.replicate 50 false ++ List.replicate 50 true ++ List.replicate 50 false) 149) :=
  C3_bounce_rejection 0 0 0
    (List.replicate 50 false ++ List.replicate 50 true ++ List.replicate 50 false)
    (by decide!) 149

/-- C4: from a state whose last sample and debounced state are both `v`, with
any counter value, feeding any number `n` of samples equal to `v` leaves
`buttonstate` equal to `v` and `GPIOD->ODR` equal to its initial value after
every one of the `n` handler steps, however often the 32-bit counter wraps. -/
theorem C4_idempotent_stability (v : Bool) (m : Machine)
    (hl : m.laststate = lvl v) (hb : m.buttonstate = lvl v) (n i : Nat) (hi : i < n) :
    (after m (List.replicate n v) i).buttonstate = lvl v ∧
    (after m (List.replicate n v) i).ODR = m.ODR ∧
    ¬ changedAt m (List.replicate n v) i := by
  obtain ⟨_, a1, a2⟩ := run_stable v (i + 1) m hl hb
  obtain ⟨_, b1, _⟩ := run_stable v i m hl hb
  unfold changedAt
  rw [after_replicate m n i v hi, before_replicate m n i v hi, a1, a2, b1]
  exact ⟨rfl, rfl, fun e => e rfl⟩

/-- C4 at a concrete input: the counter is at `2^32 - 1` and wraps on the first step. -/
theorem C4_idempotent_stability_witness :
    (after heldAtWrap (List.replicate 3 true) 2).buttonstate = lvl true ∧
    (after heldAtWrap (List.replicate 3 true) 2).ODR = heldAtWrap.ODR ∧
    ¬ changedAt heldAtWrap (List.replicate 3 true) 2 :=
  C4_idempotent_stability true heldAtWrap rfl rfl 3 2 (by decide)

/-- C5: on every finite sample sequence from the zero-initialised state, after
each handler step `buttonstate` (with `tick` a 32-bit counter that wraps) is
the `confirmedState` of the section 4.2 algorithm run with an unbounded
`stableTicks`, and a step changes `buttonstate` exactly when the same step of
the algorithm changes `confirmedState`. -/
theorem C5_wrapping_counter_refines_unbounded (sr idr odr : Nat) (samples : List Bool)
    (i : Nat) :
    (after (boot sr idr odr) samples i).buttonstate
      = lvl (specAfter samples i).confirmedState ∧
    (changedAt (boot sr idr odr) samples i ↔
      (specAfter samples i).confirmedState ≠ (specBefore samples i).confirmedState) ∧
    (∀ s, samples[i]? = some s →
      (changedAt (boot sr idr odr) samples i ↔
        (debounceStep (specBefore samples i) s).2 = true)) := by
  have ha := (sim_run (samples.take (i + 1)) _ _ (sim_boot sr idr odr)).2.2.1
  have hb := (sim_run (samples.take i) _ _ (sim_boot sr idr odr)).2.2.1
  have key : changedAt (boot sr idr odr) samples i ↔
      (specAfter samples i).confirmedState ≠ (specBefore samples i).confirmedState := by
    unfold changedAt after before specAfter specBefore
    rw [ha, hb]
    exact ⟨fun h e => h (by rw [e]), fun h e => h (lvl_inj e)⟩
  refine ⟨ha, key, ?_⟩
  intro s hs
  have hstep : specAfter samples i = (debounceStep (specBefore samples i) s).1 := by
    unfold specAfter specBefore
    rw [List.take_succ, hs, Option.toList_some, debounceRun_snoc]
  rw [key, debounceStep_toggled, hstep]

/-- C6: for a state with `laststate` and `buttonstate` in {0,1} and any sample
sequence, the run from a state with the same `tick` and complemented
`laststate` and `buttonstate`, on the complemented samples, has after every
step the same `tick` and the complemented `laststate` and `buttonstate`; so
the two runs change `buttonstate` at the same sample indices. -/
theorem C6_symmetry (m m2 : Machine) (samples : List Bool)
    (hl1 : m.laststate ≤ 1) (hb1 : m.buttonstate ≤ 1)
    (ht : m2.tick = m.tick) (hl : m2.laststate = 1 - m.laststate)
    (hb : m2.buttonstate = 1 - m.buttonstate) (i : Nat) :
    (after m2 (samples.map not) i).tick = (after m samples i).tick ∧
    (after m2 (samples.map not) i).laststate = 1 - (after m samples i).laststate ∧
    (after m2 (samples.map not) i).buttonstate = 1 - (after m samples i).buttonstate ∧
    (changedAt m2 (samples.map not) i ↔ changedAt m samples i) := by
  obtain ⟨_, a2, a3, a4, a5⟩ := symm_run (samples.take (i + 1)) m m2 hl1 hb1 ht hl hb
  obtain ⟨_, b2, _, _, b5⟩ := symm_run (samples.take i) m m2 hl1 hb1 ht hl hb
  unfold changedAt after before
  rw [← List.map_take, ← List.map_take, a3, a4, a5, b5]
  refine ⟨rfl, rfl, rfl, ?_⟩
  constructor <;> intro h <;> omega

/-- C6 at a concrete input: a press that is due against a release that is due,
each confirmed by the first sample. -/
theorem C6_symmetry_witness :
    (after releaseDue ([true, true, false].map not) 0).tick
      = (after pressDue [true, true, false] 0).tick ∧
    (after releaseDue ([true, true, false].map not) 0).laststate
      = 1 - (after pressDue [true, true, false] 0).laststate ∧
    (after releaseDue ([true, true, false].map not) 0).buttonstate
      = 1 - (after pressDue [true, true, false] 0).buttonstate ∧
    (changedAt releaseDue ([true, true, false].map not) 0 ↔
      changedAt pressDue [true, true, false] 0) :=
  C6_symmetry pressDue releaseDue [true, true, false]
    (by decide) (by decide) (by decide) (by decide) (by decide) 0

/-- C8: for every state with the update flag set, the counter after the
handler's update is 0 on a reading that differs from `laststate` and the old
counter plus one (mod `2^32`) otherwise; the handler changes `buttonstate` if
and only if that counter is above 50 and the reading differs from the old
`buttonstate`; when it changes, the new `buttonstate` is the reading, and
otherwise `buttonstate` is left as it was. -/
theorem C8_buttonstate_update (m : Machine) (h : m.SR &&& 1 ≠ 0) :
    (TIM2_IRQHandler m).tick
      = (if reading m ≠ m.laststate then 0 else (m.tick + 1) % 2 ^ 32) ∧
    ((TIM2_IRQHandler m).buttonstate ≠ m.buttonstate ↔
      ((TIM2_IRQHandler m).tick > 50 ∧ reading m ≠ m.buttonstate)) ∧
    ((TIM2_IRQHandler m).buttonstate ≠ m.buttonstate →
      (TIM2_IRQHandler m).buttonstate = reading m) ∧
    (¬ ((TIM2_IRQHandler m).tick > 50 ∧ reading m ≠ m.buttonstate) →
      (TIM2_IRQHandler m).buttonstate = m.buttonstate) := by
  refine ⟨handler_tick m h, ?_, ?_, ?_⟩
  · rw [handler_buttonstate m h]
    split_ifs with h1
    · exact ⟨fun _ => h1, fun _ => h1.2⟩
    · exact ⟨fun e => absurd rfl e, fun e => absurd e h1⟩
  · rw [handler_buttonstate m h]
    split_ifs with h1
    · intro _; rfl
    · intro e; exact absurd rfl e
  · intro hn
    rw [handler_buttonstate m h, if_neg hn]

/-- C8 at a concrete input: the 52nd high sample after reset. -/
theorem C8_buttonstate_update_witness :
    (TIM2_IRQHandler pressDue).tick
      = (if reading pressDue ≠ pressDue.laststate then 0
          else (pressDue.tick + 1) % 2 ^ 32) ∧
    ((TIM2_IRQHandler pressDue).buttonstate ≠ pressDue.buttonstate ↔
      ((TIM2_IRQHandler pressDue).tick > 50 ∧ reading pressDue ≠ pressDue.buttonstate)) ∧
    ((TIM2_IRQHandler pressDue).buttonstate ≠ pressDue.buttonstate →
      (TIM2_IRQHandler pressDue).buttonstate = reading pressDue) ∧
    (¬ ((TIM2_IRQHandler pressDue).tick > 50 ∧ reading pressDue ≠ pressDue.buttonstate) →
      (TIM2_IRQHandler pressDue).buttonstate = pressDue.buttonstate) :=
  C8_buttonstate_update pressDue (by decide)

/-- C9: for every state with the update flag set, after the handler
`laststate` is the reading; `tick` is 0 if the reading differed from the old
`laststate` and the old `tick` plus one modulo `2^32` if it did not; on a
reading that differs from the previous one `tick` does not increase. -/
theorem C9_counter_and_last_sample (m : Machine) (h : m.SR &&& 1 ≠ 0) :
    (TIM2_IRQHandler m).laststate = reading m ∧
    (reading m ≠ m.laststate → (TIM2_IRQHandler m).tick = 0) ∧
    (reading m = m.laststate → (TIM2_IRQHandler m).tick = (m.tick + 1) % 2 ^ 32) ∧
    (reading m ≠ m.laststate → (TIM2_IRQHandler m).tick ≤ m.tick) := by
  refine ⟨handler_laststate m h, ?_, ?_, ?_⟩
  · intro hne; rw [handler_tick m h, if_pos hne]
  · intro he; rw [handler_tick m h, if_neg (fun x => x he)]
  · intro hne; rw [handler_tick m h, if_pos hne]; exact Nat.zero_le _

/-- C9 at a concrete input: the counter at `2^32 - 1` wraps to 0 on an equal reading. -/
theorem C9_counter_and_last_sample_witness :
    (TIM2_IRQHandler heldAtWrap).laststate = reading heldAtWrap ∧
    (reading heldAtWrap ≠ heldAtWrap.laststate → (TIM2_IRQHandler heldAtWrap).tick = 0) ∧
    (reading heldAtWrap = heldAtWrap.laststate →
      (TIM2_IRQHandler heldAtWrap).tick = (heldAtWrap.tick + 1) % 2 ^ 32) ∧
    (reading heldAtWrap ≠ heldAtWrap.laststate →
      (TIM2_IRQHandler heldAtWrap).tick ≤ heldAtWrap.tick) :=
  C9_counter_and_last_sample heldAtWrap (by decide)

/-- C10: for every state with the update flag set and `buttonstate` in {0,1},
the handler flips bit 13 of `GPIOD->ODR` if and only if it changes
`buttonstate` from 0 to 1, and the reading is then high; in every other case
it leaves `GPIOD->ODR` as it was, in particular when it changes `buttonstate`
from 1 to 0. -/
theorem C10_led_flips_only_on_press (m : Machine) (h : m.SR &&& 1 ≠ 0)
    (hb : m.buttonstate ≤ 1) :
    (ledFlipped m (TIM2_IRQHandler m) ↔
      (m.buttonstate = 0 ∧ (TIM2_IRQHandler m).buttonstate = 1)) ∧
    (ledFlipped m (TIM2_IRQHandler m) → reading m = 1) ∧
    (¬ ledFlipped m (TIM2_IRQHandler m) → (TIM2_IRQHandler m).ODR = m.ODR) ∧
    (m.buttonstate = 1 → (TIM2_IRQHandler m).buttonstate = 0 →
      (TIM2_IRQHandler m).ODR = m.ODR) := by
  have hr := reading_le_one m
  have hx := flip13_ne m.ODR
  unfold ledFlipped
  rw [handler_ODR m h, handler_buttonstate m h]
  by_cases h1 : (TIM2_IRQHandler m).tick > 50 ∧ reading m ≠ m.buttonstate ∧ reading m ≠ 0
  · rw [if_pos h1, if_pos ⟨h1.1, h1.2.1⟩]
    refine ⟨⟨fun _ => ⟨by omega, by omega⟩, fun _ => rfl⟩, fun _ => by omega,
      fun e => absurd rfl e, fun _ _ => by omega⟩
  · rw [if_neg h1]
    refine ⟨⟨fun e => absurd e.symm hx, ?_⟩, fun e => absurd e.symm hx, fun _ => rfl,
      fun _ _ => rfl⟩
    rintro ⟨e0, e1⟩
    exfalso
    apply h1
    split_ifs at e1 with h2
    · exact ⟨h2.1, h2.2, by omega⟩
    · omega

/-- C10 at a concrete input: the release that is due changes `buttonstate`
from 1 to 0 and leaves the LED as it is. -/
theorem C10_led_flips_only_on_press_witness :
    (ledFlipped releaseDue (TIM2_IRQHandler releaseDue) ↔
      (releaseDue.buttonstate = 0 ∧ (TIM2_IRQHandler releaseDue).buttonstate = 1)) ∧
    (ledFlipped releaseDue (TIM2_IRQHandler releaseDue) → reading releaseDue = 1) ∧
    (¬ ledFlipped releaseDue (TIM2_IRQHandler releaseDue) →
      (TIM2_IRQHandler releaseDue).ODR = releaseDue.ODR) ∧
    (releaseDue.buttonstate = 1 → (TIM2_IRQHandler releaseDue).buttonstate = 0 →
      (TIM2_IRQHandler releaseDue).ODR = releaseDue.ODR) :=
  C10_led_flips_only_on_press releaseDue (by decide) (by decide)

/-! ## Frame of the handler on the registers -/

theorem testBit_8192 (j : Nat) : Nat.testBit 8192 j = decide (13 = j) := by
  have h : (8192 : Nat) = 2 ^ 13 := by norm_num
  rw [h, Nat.testBit_two_pow]

theorem testBit_mask (j : Nat) (h0 : j ≠ 0) (h32 : j < 32) :
    Nat.testBit 0xFFFFFFFE j = true := by
  interval_cases j <;> first | exact absurd rfl h0 | decide

theorem testBit_of_lt_32 (x j : Nat) (hx : x < 2 ^ 32) (hj : 32 ≤ j) :
    x.testBit j = false :=
  Nat.testBit_lt_two_pow (lt_of_lt_of_le hx (Nat.pow_le_pow_right (by decide) hj))

/-- The handler without the update flag returns the state it was given. -/
theorem handler_skip (m : Machine) (h : m.SR &&& 1 = 0) : TIM2_IRQHandler m = m := by
  unfold TIM2_IRQHandler
  rw [if_neg (fun x => x h)]

theorem handler_ODR_cases (m : Machine) :
    (TIM2_IRQHandler m).ODR = m.ODR ∨ (TIM2_IRQHandler m).ODR = m.ODR ^^^ 8192 := by
  by_cases h : m.SR &&& 1 = 0
  · left; rw [handler_skip m h]
  · rw [handler_ODR m h]
    split_ifs
    · right; rfl
    · left; rfl

theorem handler_SR (m : Machine) :
    (TIM2_IRQHandler m).SR = if m.SR &&& 1 ≠ 0 then m.SR &&& 0xFFFFFFFE else m.SR := by
  by_cases h : m.SR &&& 1 = 0
  · rw [handler_skip m h, if_neg (fun x => x h)]
  · rw [handler_fields m h, if_pos h]

/-- C11: for every state and every register contents, with or without the
update flag, one invocation of the handler leaves `GPIOD->ODR` either as it
was or equal to its old value XOR `1<<13`; every bit other than bit 13 keeps
its value, and when the register changes bit 13 is the complement of what it
was. -/
theorem C11_zero_or_one_toggle (m : Machine) :
    ((TIM2_IRQHandler m).ODR = m.ODR ∨ ledFlipped m (TIM2_IRQHandler m)) ∧
    (∀ j, j ≠ 13 → (TIM2_IRQHandler m).ODR.testBit j = m.ODR.testBit j) ∧
    ((TIM2_IRQHandler m).ODR ≠ m.ODR →
      (TIM2_IRQHandler m).ODR.testBit 13 = !(m.ODR.testBit 13)) := by
  unfold ledFlipped
  rcases handler_ODR_cases m with h | h
  · rw [h]
    exact ⟨Or.inl rfl, fun _ _ => rfl, fun e => absurd rfl e⟩
  · rw [h]
    refine ⟨Or.inr rfl, ?_, ?_⟩
    · intro j hj
      rw [Nat.testBit_xor, testBit_8192]
      have : decide (13 = j) = false := by simpa using fun e => hj e.symm
      rw [this]; simp
    · intro _
      rw [Nat.testBit_xor, testBit_8192]
      simp

/-- C12: with `TIM2->SR` a 32-bit value, after the handler returns bit 0 of
`TIM2->SR` is 0 and every other bit of `TIM2->SR` has its initial value,
whether or not the update flag was set on entry. -/
theorem C12_handler_clears_update_flag (m : Machine) (h : m.SR < 2 ^ 32) :
    (TIM2_IRQHandler m).SR.testBit 0 = false ∧
    (∀ j, j ≠ 0 → (TIM2_IRQHandler m).SR.testBit j = m.SR.testBit j) := by
  rw [handler_SR]
  by_cases hf : m.SR &&& 1 = 0
  · rw [if_neg (fun x => x hf)]
    refine ⟨?_, fun _ _ => rfl⟩
    rw [Nat.and_one_is_mod] at hf
    rw [Nat.testBit_zero]
    simp [hf]
  · rw [if_pos hf]
    refine ⟨?_, ?_⟩
    · rw [Nat.testBit_and]
      have : Nat.testBit 0xFFFFFFFE 0 = false := by decide
      rw [this]; simp
    · intro j hj
      rw [Nat.testBit_and]
      by_cases h32 : j < 32
      · rw [testBit_mask j hj h32]; simp
      · rw [testBit_of_lt_32 m.SR j h (by omega)]; simp

/-- C12 at a concrete input: every status bit set on entry, only bit 0 cleared. -/
theorem C12_handler_clears_update_flag_witness :
    (TIM2_IRQHandler allFlags).SR.testBit 0 = false ∧
    (∀ j, j ≠ 0 → (TIM2_IRQHandler allFlags).SR.testBit j = allFlags.SR.testBit j) :=
  C12_handler_clears_update_flag allFlags (by decide)

/-- C13 fails as stated. From reset (`v = 0`), after 50 high samples the
counter is 49 and after 51 high samples the counter has reached 50, and in
both states `buttonstate` is still 0; it becomes 1 only with the 52nd sample.
From a held button (`v = 1`) the same holds for low samples. -/
theorem C13_fifty_steps_counterexample :
    (run (boot 0 0 0) (List.replicate 50 true)).tick = 49 ∧
    (run (boot 0 0 0) (List.replicate 50 true)).buttonstate = 0 ∧
    (run (boot 0 0 0) (List.replicate 51 true)).tick = 50 ∧
    (run (boot 0 0 0) (List.replicate 51 true)).buttonstate = 0 ∧
    (run (boot 0 0 0) (List.replicate 52 true)).buttonstate = 1 ∧
    (run heldAtWrap (List.replicate 50 false)).tick = 49 ∧
    (run heldAtWrap (List.replicate 50 false)).buttonstate = 1 ∧
    (run heldAtWrap (List.replicate 51 false)).tick = 50 ∧
    (run heldAtWrap (List.replicate 51 false)).buttonstate = 1 ∧
    (run heldAtWrap (List.replicate 52 false)).buttonstate = 0 := by
  decide!

/-- C13, amended: a state switch is registered once the count exceeds 50. For
every `v`, from a state with `laststate = buttonstate = v` and any counter
value, after 50 and after 51 consecutive handler steps on the opposite value
the count is 49 and 50 and `buttonstate` is still `v`; after 52 such steps the
count is 51 and `buttonstate` has become the opposite value, and it keeps that
value for every longer run. -/
theorem C13_switch_registered_on_52nd_step (v : Bool) (m : Machine)
    (hl : m.laststate = lvl v) (hb : m.buttonstate = lvl v) :
    (run m (List.replicate 50 (!v))).tick = 49 ∧
    (run m (List.replicate 50 (!v))).buttonstate = lvl v ∧
    (run m (List.replicate 51 (!v))).tick = 50 ∧
    (run m (List.replicate 51 (!v))).buttonstate = lvl v ∧
    (run m (List.replicate 52 (!v))).tick = 51 ∧
    (run m (List.replicate 52 (!v))).buttonstate = lvl (!v) ∧
    (∀ n, 52 ≤ n → (run m (List.replicate n (!v))).buttonstate = lvl (!v)) := by
  obtain ⟨t49, _, b49⟩ := run_ramp v m hl hb 49 (by omega)
  obtain ⟨t50, l50, b50⟩ := run_ramp v m hl hb 50 (by omega)
  have t51 : (run m (List.replicate 52 (!v))).tick = 51 := by
    rw [run_replicate_succ, feed_tick, l50, t50]
    simp
  refine ⟨t49, b49, t50, b50, t51, (run_confirm v m hl hb).2, ?_⟩
  intro n hn
  rw [run_opposite_buttonstate v m hl hb n, if_neg (by omega)]

/-- C13 (amended) at a concrete input: high samples from reset. -/
theorem C13_switch_registered_on_52nd_step_witness :
    (run (boot 0 0 0) (List.replicate 50 (!false))).tick = 49 ∧
    (run (boot 0 0 0) (List.replicate 50 (!false))).buttonstate = lvl false ∧
    (run (boot 0 0 0) (List.replicate 51 (!false))).tick = 50 ∧
    (run (boot 0 0 0) (List.replicate 51 (!false))).buttonstate = lvl false ∧
    (run (boot 0 0 0) (List.replicate 52 (!false))).tick = 51 ∧
    (run (boot 0 0 0) (List.replicate 52 (!false))).buttonstate = lvl (!false) ∧
    (∀ n, 52 ≤ n →
      (run (boot 0 0 0) (List.replicate n (!false))).buttonstate = lvl (!false)) :=
  C13_switch_registered_on_52nd_step false (boot 0 0 0) rfl rfl

/-! ## A change of the debounced state needs 52 identical samples -/

theorem replicate_suffix_mono (a : Bool) {k n : Nat} (h : k ≤ n) :
    List.replicate k a <:+ List.replicate n a := by
  refine ⟨List.replicate (n - k) a, ?_⟩
  rw [List.append_replicate_replicate]
  congr 1
  omega

theorem suffix_snoc {a l : List Bool} (s : Bool) (h : a <:+ l) : a ++ [s] <:+ l ++ [s] := by
  obtain ⟨t, rfl⟩ := h
  exact ⟨t, by simp⟩

/-- From reset, the state after any sample sequence `l` carries a last sample
`p` and a debounced value `q`, and either the last `tick + 1` samples of `l`
are all `p`, or nothing but low level has been seen or confirmed yet. -/
theorem trail_invariant (sr idr odr : Nat) (l : List Bool) :
    ∃ p q : Bool, (run (boot sr idr odr) l).laststate = lvl p ∧
      (run (boot sr idr odr) l).buttonstate = lvl q ∧
      (List.replicate ((run (boot sr idr odr) l).tick + 1) p <:+ l ∨
        (p = false ∧ q = false)) := by
  induction l using List.reverseRecOn with
  | nil => exact ⟨false, false, rfl, rfl, Or.inr ⟨rfl, rfl⟩⟩
  | append_singleton l s ih =>
    obtain ⟨p, q, hp, hq, hinv⟩ := ih
    rw [run_snoc]
    have hb := feed_buttonstate (run (boot sr idr odr) l) s
    have ht := feed_tick (run (boot sr idr odr) l) s
    rw [hp] at ht
    rw [hq] at hb
    by_cases hs : s = p
    · subst hs
      rw [if_neg (fun x => x rfl)] at ht
      rcases hinv with hsuf | ⟨hp0, hq0⟩
      · refine ⟨s, if (feed (run (boot sr idr odr) l) s).tick > 50 ∧ lvl s ≠ lvl q then s else q,
          feed_laststate _ _, ?_, Or.inl ?_⟩
        · rw [hb]; split_ifs <;> rfl
        · have h1 := suffix_snoc s hsuf
          rw [← List.replicate_succ'] at h1
          refine (replicate_suffix_mono s ?_).trans h1
          rw [ht]
          have := Nat.mod_le ((run (boot sr idr odr) l).tick + 1) (2 ^ 32)
          omega
      · refine ⟨s, q, feed_laststate _ _, ?_, Or.inr ⟨hp0, hq0⟩⟩
        rw [hb, hp0, hq0]; simp
    · have hne : lvl s ≠ lvl p := fun x => hs (lvl_inj x)
      rw [if_pos hne] at ht
      refine ⟨s, q, feed_laststate _ _, ?_, Or.inl ?_⟩
      · rw [hb, ht]; simp
      · rw [ht]
        exact List.suffix_append l [s]

/-- A step that changes `buttonstate` ends a block of 52 identical samples and
sets `buttonstate` to their value. -/
theorem change_needs_block (sr idr odr : Nat) (l : List Bool) (s : Bool)
    (hch : (feed (run (boot sr idr odr) l) s).buttonstate
      ≠ (run (boot sr idr odr) l).buttonstate) :
    List.replicate 52 s <:+ l ++ [s] ∧
    (feed (run (boot sr idr odr) l) s).buttonstate = lvl s := by
  obtain ⟨p, q, hp, hq, hinv⟩ := trail_invariant sr idr odr l
  have hb := feed_buttonstate (run (boot sr idr odr) l) s
  have ht := feed_tick (run (boot sr idr odr) l) s
  rw [hp] at ht
  by_cases hc : (feed (run (boot sr idr odr) l) s).tick > 50 ∧
      lvl s ≠ (run (boot sr idr odr) l).buttonstate
  · rw [if_pos hc] at hb
    refine ⟨?_, hb⟩
    by_cases hs : s = p
    · subst hs
      rw [if_neg (fun x => x rfl)] at ht
      rcases hinv with hsuf | ⟨hp0, hq0⟩
      · have h1 := suffix_snoc s hsuf
        rw [← List.replicate_succ'] at h1
        refine (replicate_suffix_mono s ?_).trans h1
        have := Nat.mod_le ((run (boot sr idr odr) l).tick + 1) (2 ^ 32)
        have := hc.1
        omega
      · exfalso
        apply hc.2
        rw [hq, hp0, hq0]
    · exfalso
      have hne : lvl s ≠ lvl p := fun x => hs (lvl_inj x)
      rw [if_pos hne] at ht
      have := hc.1
      omega
  · rw [if_neg hc] at hb
    exact absurd hb hch

/-- C14: on every finite sample sequence fed from the zero-initialised state,
if the handler step at index `i` changes `buttonstate`, then `i ≥ 51` and the
52 samples at indices `i - 51` to `i` all have one value `b`, which is the new
`buttonstate`. -/
theorem C14_change_needs_52_identical_samples (sr idr odr : Nat) (samples : List Bool)
    (i : Nat) (h : changedAt (boot sr idr odr) samples i) :
    ∃ b : Bool, (after (boot sr idr odr) samples i).buttonstate = lvl b ∧ 51 ≤ i ∧
      ∀ j, i - 51 ≤ j → j ≤ i → samples[j]? = some b := by
  have hi : i < samples.length := by
    by_contra hge
    apply h
    unfold after before
    rw [List.take_of_length_le (by omega), List.take_of_length_le (by omega)]
  have hget : samples[i]? = some samples[i] := List.getElem?_eq_getElem hi
  have htake : samples.take (i + 1) = samples.take i ++ [samples[i]] := by
    rw [List.take_succ, hget, Option.toList_some]
  unfold changedAt after before at h
  rw [htake, run_snoc] at h
  obtain ⟨hsuf, hval⟩ := change_needs_block sr idr odr (samples.take i) samples[i] h
  rw [← htake] at hsuf
  obtain ⟨pre, hpre⟩ := hsuf
  have hlen : pre.length + 52 = i + 1 := by
    have := congrArg List.length hpre
    rw [List.length_append, List.length_replicate, List.length_take] at this
    omega
  refine ⟨samples[i], ?_, by omega, ?_⟩
  · unfold after
    rw [htake, run_snoc]
    exact hval
  · intro j hj1 hj2
    rw [← List.getElem?_take_of_lt (show j < i + 1 by omega), ← hpre,
      List.getElem?_append_right (by omega)]
    exact List.getElem?_replicate_of_lt (by omega)

/-- C14 at a concrete input: 30 high, 30 low, 60 high samples, where the only
change is at index 111, after the 52 high samples at indices 60 to 111. -/
theorem C14_change_needs_52_identical_samples_witness :
    ∃ b : Bool, (after (boot 0 0 0) scenario4 111).buttonstate = lvl b ∧ 51 ≤ 111 ∧
      ∀ j, 111 - 51 ≤ j → j ≤ 111 → scenario4[j]? = some b :=
  C14_change_needs_52_identical_samples 0 0 0 scenario4 111 (by decide!)

/-- One invocation of the handler, with any register contents, establishes
that a counter above 50 means the debounced state is the last sample. -/
theorem handler_keeps_invariant (m : Machine)
    (h : m.laststate ≤ 1 ∧ m.buttonstate ≤ 1 ∧ (m.tick > 50 → m.buttonstate = m.laststate)) :
    (TIM2_IRQHandler m).laststate ≤ 1 ∧ (TIM2_IRQHandler m).buttonstate ≤ 1 ∧
    ((TIM2_IRQHandler m).tick > 50 →
      (TIM2_IRQHandler m).buttonstate = (TIM2_IRQHandler m).laststate) := by
  by_cases hf : m.SR &&& 1 = 0
  · rw [handler_skip m hf]; exact h
  · have hr := reading_le_one m
    rw [handler_buttonstate m hf, handler_laststate m hf]
    refine ⟨hr, ?_, ?_⟩
    · split_ifs
      · exact hr
      · exact h.2.1
    · intro hgt
      by_cases hne : reading m = m.buttonstate
      · rw [if_neg (fun x => x.2 hne)]; exact hne.symm
      · rw [if_pos ⟨hgt, hne⟩]

theorem run_keeps_invariant (l : List Bool) :
    ∀ m : Machine,
      (m.laststate ≤ 1 ∧ m.buttonstate ≤ 1 ∧ (m.tick > 50 → m.buttonstate = m.laststate)) →
      ((run m l).laststate ≤ 1 ∧ (run m l).buttonstate ≤ 1 ∧
        ((run m l).tick > 50 → (run m l).buttonstate = (run m l).laststate)) := by
  induction l with
  | nil => intro m h; exact h
  | cons s rest ih =>
    intro m h
    rw [run_cons]
    exact ih _ (handler_keeps_invariant (latch m s) h)

/-- C15: in every state reached from the zero-initialised state by handler
steps on any sample sequence, `laststate` and `buttonstate` are each 0 or 1,
and whenever `tick > 50` the debounced state is the last sample. -/
theorem C15_reachable_invariant (sr idr odr : Nat) (samples : List Bool) :
    ((run (boot sr idr odr) samples).laststate = 0 ∨
      (run (boot sr idr odr) samples).laststate = 1) ∧
    ((run (boot sr idr odr) samples).buttonstate = 0 ∨
      (run (boot sr idr odr) samples).buttonstate = 1) ∧
    ((run (boot sr idr odr) samples).tick > 50 →
      (run (boot sr idr odr) samples).buttonstate
        = (run (boot sr idr odr) samples).laststate) := by
  have h0 : (boot sr idr odr).laststate ≤ 1 ∧ (boot sr idr odr).buttonstate ≤ 1 ∧
      ((boot sr idr odr).tick > 50 →
        (boot sr idr odr).buttonstate = (boot sr idr odr).laststate) :=
    ⟨by simp [boot], by simp [boot], fun _ => rfl⟩
  obtain ⟨a, b, c⟩ := run_keeps_invariant samples (boot sr idr odr) h0
  exact ⟨by omega, by omega, c⟩

/-- C16: when bit 0 of `TIM2->SR` is 0 on entry, for every value of
`GPIOA->IDR` and of the other registers the handler returns the state
unchanged: `tick`, `laststate`, `buttonstate`, `GPIOD->ODR` and `TIM2->SR`
all keep their values. -/
theorem C16_spurious_invocation_is_noop (m : Machine) (h : m.SR &&& 1 = 0) :
    TIM2_IRQHandler m = m ∧
    (TIM2_IRQHandler m).tick = m.tick ∧
    (TIM2_IRQHandler m).laststate = m.laststate ∧
    (TIM2_IRQHandler m).buttonstate = m.buttonstate ∧
    (TIM2_IRQHandler m).ODR = m.ODR ∧
    (TIM2_IRQHandler m).SR = m.SR := by
  rw [handler_skip m h]
  exact ⟨rfl, rfl, rfl, rfl, rfl, rfl⟩

/-- C16 at a concrete input: a press is due, but only status bit 1 is set. -/
theorem C16_spurious_invocation_is_noop_witness :
    TIM2_IRQHandler spuriousCall = spuriousCall ∧
    (TIM2_IRQHandler spuriousCall).tick = spuriousCall.tick ∧
    (TIM2_IRQHandler spuriousCall).laststate = spuriousCall.laststate ∧
    (TIM2_IRQHandler spuriousCall).buttonstate = spuriousCall.buttonstate ∧
    (TIM2_IRQHandler spuriousCall).ODR = spuriousCall.ODR ∧
    (TIM2_IRQHandler spuriousCall).SR = spuriousCall.SR :=
  C16_spurious_invocation_is_noop spuriousCall (by decide)

/-- C17: what `timer_init` configures. It sets `PSC = 15` and `ARR = 1000`
whatever the registers held, so one update period is
`(15 + 1) * (1000 + 1) = 16016` clock cycles, while one millisecond at
`FREQ = 16000000` is `16000` cycles: the period is 16 cycles (1 microsecond)
longer than 1 ms. -/
theorem C17_timer_init_period :
    (∀ r : TimerRegs, (timer_init r).PSC = 15 ∧ (timer_init r).ARR = 1000 ∧
      updatePeriodCycles (timer_init r) = 16016) ∧
    cyclesPerMs = 16000 ∧
    updatePeriodCycles (timer_init resetRegs) ≠ cyclesPerMs := by
  refine ⟨fun r => ⟨rfl, rfl, ?_⟩, by norm_num [cyclesPerMs, FREQ], ?_⟩
  · show (15 + 1) * (1000 + 1) = 16016
    norm_num
  · norm_num [cyclesPerMs, FREQ, updatePeriodCycles, timer_init, resetRegs]

end Debounce
